import Mathlib

/-!
# Verification of the suumo-monitor core (scraper + dedup store)

Shallow embedding of `src/suumo_monitor/storage.py` and
`src/suumo_monitor/scraper.py`.

* The SQLite `listings` table is a list of `Row`s (insertion order), the
  `run_log` table a list of `RunEntry`s; each storage method is a function
  on a `Store` that returns its result together with the post-call store.
* HTML documents are `Soup` values holding exactly the element data the
  selectors in `scraper.py` read: the listing cards (`div.cassetteitem`)
  with their unit rows, and the pagination anchors
  (`div.pagination.pagination-parts a[href]`).
* The HTTP layer is an oracle `Nat → FetchOutcome` consumed one outcome per
  GET; side effects (GET attempts, `time.sleep` calls) are recorded in an
  event trace.
* Python stdlib calls external to the repository (`urllib.parse.urljoin`,
  `urlparse`/`parse_qs`, `re.search`) are given executable models restricted
  to the input shapes the scraper feeds them (no percent-escapes); each such
  definition says so in its doc comment.
-/

set_option autoImplicit false

namespace SuumoMonitor

/-- `scraper.Listing`: one unit row scraped from a page. -/
structure Listing where
  listing_id : String
  url : String
  building_name : String
  address : String
  station_access : String
  rent : String
  layout : String
  area : String
  age_floors : String
  unit_floor : String
  deriving DecidableEq, Repr

/-- `storage._physical_key`: `f"{address}|{unit_floor}|{layout}|{area}"`. -/
def physical_key (l : Listing) : String :=
  l.address ++ "|" ++ l.unit_floor ++ "|" ++ l.layout ++ "|" ++ l.area

/-- One row of the SQLite `listings` table (all 13 columns of the schema). -/
structure Row where
  listing_id : String
  url : String
  building_name : String
  address : String
  station_access : String
  rent : String
  layout : String
  area : String
  age_floors : String
  unit_floor : String
  physical_key : String
  first_seen_at : String
  notified_at : Option String
  deriving DecidableEq, Repr

/-- One row of the `run_log` table (the AUTOINCREMENT id is the position). -/
structure RunEntry where
  run_at : String
  listings_found : Int
  new_listings : Int
  error : Option String
  deriving DecidableEq, Repr

/-- The persisted database state: both tables, rows in insertion order. -/
structure Store where
  listings : List Row
  run_log : List RunEntry
  deriving DecidableEq, Repr

/-- The filtering loop of `ListingStorage.filter_new_listings` (lines
151-162): walk the candidates, drop those failing `is_new`, and for
candidates with a non-empty `unit_floor` drop repeats of a physical key
already added to `seen_pkeys` by an earlier kept candidate. -/
def dedupLoop (is_new : Listing → Bool) : List Listing → List String → List Listing
  | [], _ => []
  | l :: rest, seen =>
    if !(is_new l) then dedupLoop is_new rest seen
    else if l.unit_floor != "" then
      (if seen.contains (physical_key l) then dedupLoop is_new rest seen
       else l :: dedupLoop is_new rest (physical_key l :: seen))
    else l :: dedupLoop is_new rest seen

/-- `ids = [l.listing_id for l in listings]`. -/
def batchIds (listings : List Listing) : List String :=
  listings.map (fun l => l.listing_id)

/-- `pkeys = [_physical_key(l) for l in listings if l.unit_floor]`. -/
def batchPkeys (listings : List Listing) : List String :=
  (listings.filter (fun l => l.unit_floor != "")).map physical_key

/-- `known_ids`: result of
`SELECT listing_id FROM listings WHERE listing_id IN (ids)`. -/
def knownIds (s : Store) (listings : List Listing) : List String :=
  (s.listings.filter (fun r => (batchIds listings).contains r.listing_id)).map
    (fun r => r.listing_id)

/-- `known_pkeys`: result of
`SELECT physical_key FROM listings WHERE physical_key IN (pkeys)` with empty
keys dropped; the query only runs when `pkeys` is non-empty
(`pk_placeholders`), otherwise the set stays empty. -/
def knownPkeys (s : Store) (listings : List Listing) : List String :=
  if (batchPkeys listings).isEmpty then []
  else
    (s.listings.filter
        (fun r =>
          (batchPkeys listings).contains r.physical_key && r.physical_key != "")).map
      (fun r => r.physical_key)

/-- The inner `is_new` predicate of `filter_new_listings`: unknown
`listing_id`, and (when the floor is known) a physical key not among the
stored ones. -/
def is_new (s : Store) (listings : List Listing) (l : Listing) : Bool :=
  !((knownIds s listings).contains l.listing_id) &&
    !((l.unit_floor != "") && (knownPkeys s listings).contains (physical_key l))

/-- `ListingStorage.filter_new_listings`. Only SELECT statements run, so
the returned store is the argument store. -/
def filter_new_listings (s : Store) (listings : List Listing) :
    List Listing × Store :=
  if listings.isEmpty then ([], s)
  else (dedupLoop (is_new s listings) listings [], s)

/-- `ListingStorage.delete_expired_listings`: empty id list is a no-op
returning 0; otherwise `DELETE FROM listings WHERE listing_id NOT IN (...)`
keeps exactly the rows whose id is listed and reports `cur.rowcount`, the
number of rows removed. -/
def delete_expired_listings (s : Store) (current_listing_ids : List String) :
    Nat × Store :=
  if current_listing_ids.isEmpty then (0, s)
  else
    let remaining :=
      s.listings.filter (fun r => current_listing_ids.contains r.listing_id)
    (s.listings.length - remaining.length, { s with listings := remaining })

/-- The row built for one listing by `save_listings` (`first_seen_at = now`,
`notified_at = NULL`, `physical_key` recomputed from the listing). -/
def rowOfListing (l : Listing) (now : String) : Row :=
  { listing_id := l.listing_id
    url := l.url
    building_name := l.building_name
    address := l.address
    station_access := l.station_access
    rent := l.rent
    layout := l.layout
    area := l.area
    age_floors := l.age_floors
    unit_floor := l.unit_floor
    physical_key := physical_key l
    first_seen_at := now
    notified_at := none }

/-- The table already holds a row with this primary key. -/
def hasId (rows : List Row) (listing_id : String) : Bool :=
  rows.any fun x => x.listing_id == listing_id

/-- The primary-key invariant of the `listings` table: each `listing_id`
occurs on at most one row. -/
def nodupIds (rows : List Row) : Prop :=
  (rows.map fun r => r.listing_id).Nodup

/-- One `INSERT OR IGNORE` step: the insert is dropped when a row with the
same primary key `listing_id` already exists, otherwise the row is appended. -/
def insertIgnore (rows : List Row) (r : Row) : List Row :=
  if hasId rows r.listing_id then rows
  else rows ++ [r]

/-- `ListingStorage.save_listings`: `executemany` of `INSERT OR IGNORE`,
one sequential insert per listing, with `now` the single timestamp taken at
the start of the call. Empty batches return before touching the database. -/
def save_listings (s : Store) (listings : List Listing) (now : String) : Store :=
  if listings.isEmpty then s
  else { s with listings := listings.foldl (fun rows l => insertIgnore rows (rowOfListing l now)) s.listings }

/-! ## Scraper: document model and parsing (`scraper.py`) -/

/-- `BASE_URL` of `scraper.py`. -/
def BASE_URL : String := "https://suumo.jp"

/-- One unit row (`table.cassetteitem_other tbody tr`) as the selectors
read it: `link_href` is the detail link's `href` (none when the
`td.ui-text--bold a` tag or its attribute is absent — both make the row be
skipped), `text` is `row.get_text(" ", strip=True)`, and the three `_text`
results for rent/layout/area (empty string when the element is missing). -/
structure UnitRow where
  link_href : Option String
  text : String
  rent : String
  layout : String
  area : String
  deriving DecidableEq, Repr

/-- One building card (`div.cassetteitem`) with its `_text` fields and
unit rows. -/
structure Card where
  building_name : String
  address : String
  station_access : String
  age_floors : String
  unit_rows : List UnitRow
  deriving DecidableEq, Repr

/-- A pagination anchor matching `div.pagination.pagination-parts a[href]`:
its stripped text and its `href` attribute (guaranteed present by the
selector, possibly empty). -/
structure PagAnchor where
  text : String
  href : String
  deriving DecidableEq, Repr

/-- A parsed HTML document, holding exactly the element data the scraper's
selectors query. -/
structure Soup where
  cards : List Card
  pagination_links : List PagAnchor
  deriving DecidableEq, Repr

/-- Substring test on character lists, modelling Python's `in` operator on
strings (`"次へ" in text`). -/
def infixOf (pat : List Char) : List Char → Bool
  | [] => pat.isEmpty
  | c :: rest => pat.isPrefixOf (c :: rest) || infixOf pat rest

/-- Models `urllib.parse.urljoin(BASE_URL, href)` for the href shapes the
site emits: an already-absolute URL is returned unchanged, an absolute-path
reference is resolved against the base. -/
def urljoin (base url : String) : String :=
  if url = "" then base
  else if infixOf "://".toList url.toList then url
  else base ++ url

/-- Python word characters as used by `\w` in `re.search(r"(jnc_\w+)", href)`
(ASCII range — the ids on the site are ASCII). -/
def isWordChar (c : Char) : Bool :=
  c.isAlpha || c.isDigit || c == '_'

/-- The scan behind `re.search(r"(jnc_\w+)", href)`: at the leftmost
occurrence of the literal `jnc_` followed by at least one word character,
the maximal word-character run after the literal. -/
def searchJncRun : List Char → Option (List Char)
  | [] => none
  | c :: rest =>
    if c = 'j' ∧ rest.take 3 = ['n', 'c', '_'] then
      let run := (rest.drop 3).takeWhile isWordChar
      if run.isEmpty then searchJncRun rest
      else some run
    else searchJncRun rest

/-- Models `re.search(r"(jnc_\w+)", href)`: the matched text, i.e. `jnc_`
plus the captured run. -/
def searchJnc (cs : List Char) : Option String :=
  (searchJncRun cs).map fun run => String.mk ('j' :: 'n' :: 'c' :: '_' :: run)

/-- Models the query extraction of `urllib.parse.urlparse`: the portion of
the URL after the first `?`, with any fragment (after the first `#`)
removed first. -/
def getQuery (href : String) : String :=
  let beforeFrag := href.toList.takeWhile (fun c => c != '#')
  match beforeFrag.dropWhile (fun c => c != '?') with
  | [] => ""
  | _ :: rest => String.mk rest

/-- Models `urllib.parse.parse_qs` on one `&`-separated part (default
options: parts without `=` or with an empty value are dropped), restricted
to inputs without percent-escapes or `+` as the scraper's hrefs have. -/
def qsPair (part : String) : Option (String × String) :=
  let cs := part.toList
  let name := cs.takeWhile (fun c => c != '=')
  match cs.dropWhile (fun c => c != '=') with
  | [] => none
  | _ :: valChars =>
    if valChars.isEmpty then none
    else some (String.mk name, String.mk valChars)

/-- First value of `key` in the query string, i.e.
`parse_qs(query).get(key, [None])[0]`. -/
def getQsFirst (query key : String) : Option String :=
  (((query.splitOn "&").filterMap qsPair).find? (fun p => p.1 == key)).map
    (fun p => p.2)

/-- `SuumoScraper._extract_listing_id`: the `jnc_` pattern first, then the
`bc` query parameter (`f"bc_{bc}"`), else none. -/
def extract_listing_id (href : String) : Option String :=
  match searchJnc href.toList with
  | some s => some s
  | none =>
    match getQsFirst (getQuery href) "bc" with
    | some bc => if bc != "" then some ("bc_" ++ bc) else none
    | none => none

/-- Models `re.search(r"\d+階", row_text)`: leftmost maximal digit run
immediately followed by `階` (ASCII digits, as the site emits). -/
def findFloor : List Char → Option String
  | [] => none
  | c :: rest =>
    if c.isDigit then
      if (rest.dropWhile Char.isDigit).head? = some '階' then
        some (String.mk ((c :: rest).takeWhile Char.isDigit ++ ['階']))
      else findFloor rest
    else findFloor rest

/-- The body of the unit-row loop in `SuumoScraper._parse_listings`: skip
rows without a usable (present, non-empty) detail link, skip rows whose id
extraction fails, otherwise build the `Listing`. -/
def parseRow (card : Card) (row : UnitRow) : Option Listing :=
  match row.link_href with
  | none => none
  | some href =>
    if href = "" then none
    else
      match extract_listing_id href with
      | none => none
      | some lid =>
        some
          { listing_id := lid
            url := urljoin BASE_URL href
            building_name := card.building_name
            address := card.address
            station_access := card.station_access
            rent := row.rent
            layout := row.layout
            area := row.area
            age_floors := card.age_floors
            unit_floor :=
              match findFloor row.text.toList with
              | some f => f
              | none => "" }

/-- `SuumoScraper._parse_listings`: all listings of every card, in document
order. A `cards`-less document yields `[]` (only a warning is logged). -/
def parse_listings (s : Soup) : List Listing :=
  s.cards.flatMap (fun card => card.unit_rows.filterMap (parseRow card))

/-- `SuumoScraper._get_next_page_url`: the first pagination anchor whose
text contains `次へ` or equals `>` and whose `href` is non-empty, resolved
against the base URL; none otherwise. -/
def get_next_page_url (s : Soup) : Option String :=
  ((s.pagination_links.find? fun a =>
      (infixOf "次へ".toList a.text.toList || a.text == ">") && a.href != "").map
    fun a => urljoin BASE_URL a.href)

/-! ## Fetch loop (`SuumoScraper.fetch_all_listings` / `_fetch_page`)

HTTP is an oracle `Nat → FetchOutcome`; every `session.get` consumes the
next outcome. GET attempts and `time.sleep` calls are recorded as events. -/

/-- Outcome of one `session.get`: a parsed document, `raise_for_status`
raising `HTTPError` with a status code, or any other `RequestException`. -/
inductive FetchOutcome where
  | ok (doc : Soup)
  | httpErr (status : Nat)
  | netErr
  deriving DecidableEq, Repr

/-- Observable side effects of the fetch loop: one HTTP GET attempt of a
URL, or one `time.sleep` of a duration in seconds. -/
inductive Event where
  | attempt (url : String)
  | sleep (secs : ℚ)
  deriving DecidableEq, Repr

/-- `SuumoScraper._fetch_page`: one GET; on `HTTPError` with status 429,
sleep 60 seconds and retry the same URL exactly once, any failure of that
retry yielding `None`; any other `HTTPError` or `RequestException` yields
`None` at once. Returns the document (if any), the advanced oracle
position, and the event trace. -/
def fetchPage (w : Nat → FetchOutcome) (k : Nat) (url : String) :
    Option Soup × Nat × List Event :=
  match w k with
  | .ok doc => (some doc, k + 1, [.attempt url])
  | .httpErr status =>
    if status = 429 then
      match w (k + 1) with
      | .ok doc => (some doc, k + 2, [.attempt url, .sleep 60, .attempt url])
      | _ => (none, k + 2, [.attempt url, .sleep 60, .attempt url])
    else (none, k + 1, [.attempt url])
  | .netErr => (none, k + 1, [.attempt url])

/-- The `while url and page_num <= self.max_pages` loop of
`fetch_all_listings`, with `remaining = max_pages - page_num + 1` the
number of iterations the page counter still allows. A failed fetch breaks
the loop; otherwise the page is parsed, `url` advances to the document's
next-page link, and — whenever that link is present, even when the page
counter has just run out — the inter-page delay is slept. -/
def fetchLoop (w : Nat → FetchOutcome) (delay : ℚ) :
    Nat → Option String → Nat → List Listing × List Event
  | 0, _, _ => ([], [])
  | _ + 1, none, _ => ([], [])
  | remaining + 1, some url, k =>
    match fetchPage w k url with
    | (none, _, ev) => ([], ev)
    | (some doc, k2, ev) =>
      match get_next_page_url doc with
      | none => (parse_listings doc, ev)
      | some u2 =>
        let rest := fetchLoop w delay remaining (some u2) k2
        (parse_listings doc ++ rest.1, ev ++ Event.sleep delay :: rest.2)

/-- `SuumoScraper.fetch_all_listings(search_url)`: run the loop from the
search URL with the full page budget. -/
def fetch_all_listings (w : Nat → FetchOutcome) (delay : ℚ) (max_pages : Nat)
    (search_url : String) : List Listing × List Event :=
  fetchLoop w delay max_pages (some search_url) 0

/-- Number of HTTP GET attempts in a trace. -/
def countAttempts (evs : List Event) : Nat :=
  evs.countP fun e => match e with | .attempt _ => true | _ => false

/-- Number of `time.sleep` calls in a trace. -/
def countSleeps (evs : List Event) : Nat :=
  evs.countP fun e => match e with | .sleep _ => true | _ => false

/-- `ListingStorage.mark_notified`: set `notified_at = now` on the rows
whose id is listed. -/
def mark_notified (s : Store) (listing_ids : List String) (now : String) : Store :=
  if listing_ids.isEmpty then s
  else
    { s with
      listings :=
        s.listings.map fun r =>
          if listing_ids.contains r.listing_id then { r with notified_at := some now }
          else r }

/-- `ListingStorage.log_run`: append one run record. -/
def log_run (s : Store) (listings_found new_listings : Int)
    (error : Option String) (now : String) : Store :=
  { s with
    run_log := s.run_log ++ [{ run_at := now, listings_found := listings_found,
                               new_listings := new_listings, error := error }] }

/-! ## Specification-side definitions

Written from the spec's words, to be compared with the embedded code. -/

/-- Spec rule 1: "the candidate's `listing_id` already exists in the
store". -/
def specRule1 (s : Store) (l : Listing) : Bool :=
  s.listings.any fun r => r.listing_id == l.listing_id

/-- Spec rule 2: "the candidate has non-empty `unit_floor` and its physical
key already exists in the store under a *different* listing_id". -/
def specRule2 (s : Store) (l : Listing) : Bool :=
  (l.unit_floor != "") &&
    s.listings.any fun r =>
      r.physical_key == physical_key l && r.listing_id != l.listing_id

/-- The spec's `filterNew` walk: apply exclusion rules 1, 2 and 3 in that
precedence; `seen` holds the physical keys of earlier kept candidates
("first occurrence wins"); candidates with empty `unit_floor` are subject
only to rule 1. -/
def specFilterLoop (s : Store) : List Listing → List String → List Listing
  | [], _ => []
  | l :: rest, seen =>
    if specRule1 s l then specFilterLoop s rest seen
    else if specRule2 s l then specFilterLoop s rest seen
    else if (l.unit_floor != "") && seen.contains (physical_key l) then
      specFilterLoop s rest seen
    else if l.unit_floor != "" then
      l :: specFilterLoop s rest (physical_key l :: seen)
    else l :: specFilterLoop s rest seen

/-- The spec's `filterNew(candidates)`. -/
def specFilterNew (s : Store) (candidates : List Listing) : List Listing :=
  specFilterLoop s candidates []

/-! ## Example data for concrete evaluations -/

/-- An empty database. -/
def exStore0 : Store := { listings := [], run_log := [] }

/-- A sample listing with a known floor. -/
def exL1 : Listing :=
  { listing_id := "jnc_1", url := "https://suumo.jp/chintai/jnc_1/",
    building_name := "B1", address := "A1", station_access := "S1",
    rent := "10.0万円", layout := "1K", area := "20m2", age_floors := "築5年",
    unit_floor := "3階" }

/-- A sample listing without a floor token. -/
def exL2 : Listing :=
  { listing_id := "jnc_2", url := "https://suumo.jp/chintai/jnc_2/",
    building_name := "B2", address := "A2", station_access := "S2",
    rent := "9.5万円", layout := "1DK", area := "25m2", age_floors := "築8年",
    unit_floor := "" }

/-- A database holding the two sample listings. -/
def exStoreD : Store :=
  { listings := [rowOfListing exL1 "t0", rowOfListing exL2 "t0"], run_log := [] }

/-- A document with zero listing cards but a pagination anchor labelled
`次へ`. -/
def exSoupNoCards : Soup :=
  { cards := [], pagination_links := [{ text := "次へ", href := "/p2" }] }

/-- An HTTP oracle on which every GET returns `exSoupNoCards`. -/
def exOracle : Nat → FetchOutcome := fun _ => .ok exSoupNoCards

/-- An HTTP oracle on which every GET fails with HTTP 500. -/
def exOracle500 : Nat → FetchOutcome := fun _ => .httpErr 500

/-- A one-card, one-row document whose detail link carries a `jnc_` id. -/
def exSoupOne : Soup :=
  { cards := [{ building_name := "B1", address := "A1", station_access := "S1",
                age_floors := "築5年",
                unit_rows := [{ link_href := some "/chintai/jnc_abc/?bc=100",
                                text := "3階 10.0万円", rent := "10.0万円",
                                layout := "1K", area := "20m2" }] }],
    pagination_links := [] }

/-- The listing `exSoupOne` parses to. -/
def exParsed : Listing :=
  { listing_id := "jnc_abc", url := "https://suumo.jp/chintai/jnc_abc/?bc=100",
    building_name := "B1", address := "A1", station_access := "S1",
    rent := "10.0万円", layout := "1K", area := "20m2", age_floors := "築5年",
    unit_floor := "3階" }

/-! ## Basic lemmas -/

/-- A physical key always contains the separators, hence is never the empty
string; in particular the `if row["physical_key"]` guard never drops a key
equal to a candidate's. -/
theorem physical_key_ne_empty (l : Listing) : physical_key l ≠ "" := by
  intro h
  have hlen := congrArg String.length h
  have h1 : "|".length = 1 := rfl
  have h0 : "".length = 0 := rfl
  simp only [physical_key, String.length_append, h1, h0] at hlen
  omega

/-- Bridge between `List.contains` and list membership for strings. -/
theorem contains_eq_true_iff (xs : List String) (a : String) :
    xs.contains a = true ↔ a ∈ xs :=
  List.elem_iff

/-- For a candidate of the batch, membership of its id in the SELECTed
`known_ids` is exactly spec rule 1. -/
theorem knownIds_contains_eq (s : Store) (ls : List Listing) (l : Listing)
    (hl : l ∈ ls) :
    (knownIds s ls).contains l.listing_id = specRule1 s l := by
  rw [Bool.eq_iff_iff]
  simp only [knownIds, specRule1, contains_eq_true_iff, List.any_eq_true,
    List.mem_map, List.mem_filter, beq_iff_eq]
  constructor
  · rintro ⟨r, ⟨hr, -⟩, hid⟩
    exact ⟨r, hr, hid⟩
  · rintro ⟨r, hr, hid⟩
    refine ⟨r, ⟨hr, ?_⟩, hid⟩
    rw [hid]
    exact List.mem_map.mpr ⟨l, hl, rfl⟩

/-- For a candidate of the batch with a known floor, membership of its
physical key in the SELECTed `known_pkeys` is exactly "some stored row has
this physical key". -/
theorem knownPkeys_contains_eq (s : Store) (ls : List Listing) (l : Listing)
    (hl : l ∈ ls) (hf : l.unit_floor ≠ "") :
    (knownPkeys s ls).contains (physical_key l) =
      s.listings.any fun r => r.physical_key == physical_key l := by
  have hpk : physical_key l ∈ batchPkeys ls := by
    simp only [batchPkeys, List.mem_map, List.mem_filter, bne_iff_ne, ne_eq]
    exact ⟨l, ⟨hl, hf⟩, rfl⟩
  have hne : (batchPkeys ls).isEmpty = false := by
    cases hE : batchPkeys ls with
    | nil => rw [hE] at hpk; simp at hpk
    | cons a t => simp
  rw [Bool.eq_iff_iff]
  simp only [knownPkeys, hne, Bool.false_eq_true, if_false,
    contains_eq_true_iff, List.any_eq_true, List.mem_map, List.mem_filter,
    beq_iff_eq, Bool.and_eq_true, bne_iff_ne, ne_eq]
  constructor
  · rintro ⟨r, ⟨hr, -⟩, hkey⟩
    exact ⟨r, hr, hkey⟩
  · rintro ⟨r, hr, hkey⟩
    refine ⟨r, ⟨hr, ?_, ?_⟩, hkey⟩
    · rw [hkey]
      exact hpk
    · rw [hkey]; exact physical_key_ne_empty l

/-- Pointwise equivalence on batch members: the code's `is_new` agrees with
the spec's rules 1 and 2 — the "different listing_id" proviso of rule 2 is
redundant exactly because rule 1 has precedence. -/
theorem is_new_eq_spec (s : Store) (ls : List Listing) (l : Listing)
    (hl : l ∈ ls) :
    is_new s ls l = !(specRule1 s l || specRule2 s l) := by
  cases h1 : specRule1 s l with
  | true =>
    have hid : (knownIds s ls).contains l.listing_id = true := by
      rw [knownIds_contains_eq s ls l hl, h1]
    simp only [is_new, hid, Bool.not_true, Bool.false_and, Bool.true_or]
  | false =>
    have hid : (knownIds s ls).contains l.listing_id = false := by
      rw [knownIds_contains_eq s ls l hl, h1]
    cases hf : (l.unit_floor != "") with
    | false =>
      simp only [is_new, hid, hf, specRule2, Bool.false_and, Bool.not_false,
        Bool.true_and, Bool.false_or]
    | true =>
      have hfne : l.unit_floor ≠ "" := by simpa using hf
      simp only [is_new, hid, hf, specRule2, Bool.not_false, Bool.true_and,
        Bool.false_or]
      rw [knownPkeys_contains_eq s ls l hl hfne]
      congr 1
      rw [Bool.eq_iff_iff]
      simp only [List.any_eq_true, beq_iff_eq, Bool.and_eq_true, bne_iff_ne,
        ne_eq]
      constructor
      · rintro ⟨r, hr, hkey⟩
        refine ⟨r, hr, hkey, ?_⟩
        intro hcontra
        have hru : specRule1 s l = true := by
          simp only [specRule1, List.any_eq_true, beq_iff_eq]
          exact ⟨r, hr, hcontra⟩
        rw [h1] at hru
        exact absurd hru (by decide)
      · rintro ⟨r, hr, hkey, -⟩
        exact ⟨r, hr, hkey⟩

/-- The filtering loop keeps a subsequence of its input, in input order. -/
theorem dedupLoop_sublist (keep : Listing → Bool) :
    ∀ (ls : List Listing) (seen : List String),
      (dedupLoop keep ls seen).Sublist ls
  | [], _ => by simp [dedupLoop]
  | l :: rest, seen => by
    simp only [dedupLoop]
    split
    · exact (dedupLoop_sublist keep rest seen).cons l
    · split
      · split
        · exact (dedupLoop_sublist keep rest seen).cons l
        · exact (dedupLoop_sublist keep rest _).cons₂ l
      · exact (dedupLoop_sublist keep rest seen).cons₂ l

/-- The filtering loop only looks at its predicate on list members. -/
theorem dedupLoop_congr (f g : Listing → Bool) :
    ∀ (ls : List Listing) (seen : List String),
      (∀ l ∈ ls, f l = g l) → dedupLoop f ls seen = dedupLoop g ls seen
  | [], _, _ => rfl
  | l :: rest, seen, h => by
    have hf : f l = g l := h l (List.mem_cons_self _ _)
    have hrest : ∀ x ∈ rest, f x = g x := fun x hx =>
      h x (List.mem_cons_of_mem _ hx)
    simp only [dedupLoop, hf]
    split
    · exact dedupLoop_congr f g rest seen hrest
    · split
      · split
        · exact dedupLoop_congr f g rest seen hrest
        · rw [dedupLoop_congr f g rest _ hrest]
      · rw [dedupLoop_congr f g rest seen hrest]

/-- A predicate false on every member makes the loop return nothing. -/
theorem dedupLoop_eq_nil (keep : Listing → Bool) :
    ∀ (ls : List Listing) (seen : List String),
      (∀ l ∈ ls, keep l = false) → dedupLoop keep ls seen = []
  | [], _, _ => rfl
  | l :: rest, seen, h => by
    have hrest : ∀ x ∈ rest, keep x = false := fun x hx =>
      h x (List.mem_cons_of_mem _ hx)
    simp only [dedupLoop, h l (List.mem_cons_self _ _)]
    exact dedupLoop_eq_nil keep rest seen hrest

/-- The spec's rule walk is the code's loop with the combined rule-1/rule-2
predicate. -/
theorem specFilterLoop_eq_dedupLoop (s : Store) :
    ∀ (ls : List Listing) (seen : List String),
      specFilterLoop s ls seen =
        dedupLoop (fun l => !(specRule1 s l || specRule2 s l)) ls seen
  | [], _ => rfl
  | l :: rest, seen => by
    simp only [specFilterLoop, dedupLoop, Bool.not_not]
    cases h1 : specRule1 s l with
    | true =>
      simp only [Bool.true_or, if_true]
      exact specFilterLoop_eq_dedupLoop s rest seen
    | false =>
      cases h2 : specRule2 s l with
      | true =>
        simp only [Bool.false_or, if_true]
        exact specFilterLoop_eq_dedupLoop s rest seen
      | false =>
        simp only [Bool.false_or, Bool.false_eq_true, if_false]
        cases hf : (l.unit_floor != "") with
        | false =>
          simp only [Bool.false_and, Bool.false_eq_true, if_false]
          rw [specFilterLoop_eq_dedupLoop s rest seen]
        | true =>
          simp only [Bool.true_and]
          cases hc : seen.contains (physical_key l) with
          | true =>
            simp only [if_true]
            exact specFilterLoop_eq_dedupLoop s rest seen
          | false =>
            simp only [Bool.false_eq_true, if_false, if_true]
            rw [specFilterLoop_eq_dedupLoop s rest (physical_key l :: seen)]

/-- Every element the loop keeps satisfies its predicate. -/
theorem keep_of_mem_dedupLoop (keep : Listing → Bool) :
    ∀ (ls : List Listing) (seen : List String) (x : Listing),
      x ∈ dedupLoop keep ls seen → keep x = true
  | [], _, _, hx => by simp [dedupLoop] at hx
  | l :: rest, seen, x, hx => by
    simp only [dedupLoop] at hx
    split at hx
    · exact keep_of_mem_dedupLoop keep rest seen x hx
    · rename_i hkeep
      split at hx
      · split at hx
        · exact keep_of_mem_dedupLoop keep rest seen x hx
        · rcases List.mem_cons.mp hx with rfl | hx2
          · simpa using hkeep
          · exact keep_of_mem_dedupLoop keep rest _ x hx2
      · rcases List.mem_cons.mp hx with rfl | hx2
        · simpa using hkeep
        · exact keep_of_mem_dedupLoop keep rest seen x hx2

/-- A kept candidate with empty `unit_floor` appears in the loop output
regardless of the seen-key set. -/
theorem mem_dedupLoop_of_empty_floor (keep : Listing → Bool) :
    ∀ (ls : List Listing) (seen : List String) (l : Listing),
      l ∈ ls → keep l = true → l.unit_floor = "" →
      l ∈ dedupLoop keep ls seen
  | [], _, _, hl, _, _ => absurd hl (List.not_mem_nil _)
  | x :: rest, seen, l, hl, hkeep, hfloor => by
    simp only [dedupLoop]
    rcases List.mem_cons.mp hl with rfl | hl2
    · rw [hkeep]
      simp only [Bool.not_true, Bool.false_eq_true, if_false]
      have hbne : (l.unit_floor != "") = false := by simp [hfloor]
      rw [hbne]
      simp only [Bool.false_eq_true, if_false]
      exact List.mem_cons_self _ _
    · split
      · exact mem_dedupLoop_of_empty_floor keep rest seen l hl2 hkeep hfloor
      · split
        · split
          · exact mem_dedupLoop_of_empty_floor keep rest seen l hl2 hkeep hfloor
          · exact List.mem_cons_of_mem _
              (mem_dedupLoop_of_empty_floor keep rest _ l hl2 hkeep hfloor)
        · exact List.mem_cons_of_mem _
            (mem_dedupLoop_of_empty_floor keep rest seen l hl2 hkeep hfloor)


/-! ## Claim theorems -/

/-- C1: for every store state and candidate list, `filter_new_listings`
returns exactly the subsequence of the candidates, in input order, that
survive the three exclusion rules in precedence 1 (id already stored),
2 (non-empty floor, physical key stored under a different listing_id),
3 (non-empty floor, physical key seen earlier in the batch, first kept
occurrence winning); empty-floor candidates are subject only to rule 1.
`specFilterNew` is the rule-by-rule transcription of that description. -/
theorem C1_filter_new_is_spec_subsequence :
    ∀ (s : Store) (candidates : List Listing),
      (filter_new_listings s candidates).1 = specFilterNew s candidates ∧
      ((filter_new_listings s candidates).1).Sublist candidates := by
  intro s ls
  by_cases hE : ls = []
  · subst hE
    exact ⟨rfl, List.Sublist.refl _⟩
  · have hne : ls.isEmpty = false := by
      cases ls with
      | nil => exact absurd rfl hE
      | cons a t => rfl
    constructor
    · simp only [filter_new_listings, hne, Bool.false_eq_true, if_false]
      rw [specFilterNew, specFilterLoop_eq_dedupLoop]
      exact dedupLoop_congr _ _ ls [] (fun l hl => is_new_eq_spec s ls l hl)
    · simp only [filter_new_listings, hne, Bool.false_eq_true, if_false]
      exact dedupLoop_sublist _ ls []

/-- C10: `filter_new_listings` performs only reads — both the `listings`
table and the `run_log` table of the store it returns are the ones it was
given. -/
theorem C10_filter_new_modifies_nothing :
    ∀ (s : Store) (candidates : List Listing),
      (filter_new_listings s candidates).2.listings = s.listings ∧
      (filter_new_listings s candidates).2.run_log = s.run_log := by
  intro s ls
  rw [filter_new_listings]
  split
  · exact ⟨rfl, rfl⟩
  · exact ⟨rfl, rfl⟩

/-- C4: the physical key is exactly address, unit_floor, layout, area
joined by the fixed separator `|`; and when `unit_floor` is empty the key
is never consulted — such a candidate is kept or dropped solely by the
listing-id check against the store. -/
theorem C4_physical_key_and_empty_floor :
    (∀ l : Listing,
        physical_key l =
          l.address ++ "|" ++ l.unit_floor ++ "|" ++ l.layout ++ "|" ++ l.area) ∧
    ∀ (s : Store) (candidates : List Listing) (l : Listing),
      l ∈ candidates → l.unit_floor = "" →
      (l ∈ (filter_new_listings s candidates).1 ↔
        ¬∃ r ∈ s.listings, r.listing_id = l.listing_id) := by
  refine ⟨fun l => rfl, ?_⟩
  intro s ls l hl hfloor
  have hne : ls.isEmpty = false := by
    cases ls with
    | nil => exact absurd hl (List.not_mem_nil _)
    | cons a t => rfl
  have hbne : (l.unit_floor != "") = false := by simp [hfloor]
  have hval : is_new s ls l = !(specRule1 s l) := by
    rw [is_new, knownIds_contains_eq s ls l hl, hbne]
    simp only [Bool.false_and, Bool.not_false, Bool.and_true]
  have hrule : specRule1 s l = true ↔ ∃ r ∈ s.listings, r.listing_id = l.listing_id := by
    simp only [specRule1, List.any_eq_true, beq_iff_eq]
  simp only [filter_new_listings, hne, Bool.false_eq_true, if_false]
  cases h1 : specRule1 s l with
  | true =>
    have hkeep : is_new s ls l = false := by rw [hval, h1, Bool.not_true]
    constructor
    · intro hmem
      have := keep_of_mem_dedupLoop (is_new s ls) ls [] l hmem
      rw [hkeep] at this
      exact absurd this (by decide)
    · intro hno
      exact absurd (hrule.mp h1) hno
  | false =>
    have hkeep : is_new s ls l = true := by rw [hval, h1, Bool.not_false]
    constructor
    · intro _ hex
      have := hrule.mpr hex
      rw [h1] at this
      exact absurd this (by decide)
    · intro _
      exact mem_dedupLoop_of_empty_floor (is_new s ls) ls [] l hl hkeep hfloor

/-- Witness for C4 at a concrete store and batch: a floorless candidate
whose id is fresh is kept. -/
theorem C4_witness :
    ({ listing_id := "jnc_b", url := "u", building_name := "B", address := "A",
       station_access := "S", rent := "R", layout := "L", area := "M",
       age_floors := "G", unit_floor := "" } : Listing) ∈
      (filter_new_listings
        { listings := [], run_log := [] }
        [{ listing_id := "jnc_b", url := "u", building_name := "B", address := "A",
           station_access := "S", rent := "R", layout := "L", area := "M",
           age_floors := "G", unit_floor := "" }]).1 :=
  ((C4_physical_key_and_empty_floor.2
      { listings := [], run_log := [] } _ _ (by decide) rfl).mpr)
    (by rintro ⟨r, hr, -⟩; exact absurd hr (List.not_mem_nil _))

/-! ## Save and delete lemmas -/

/-- `hasId` is membership of the id among the table's ids. -/
theorem hasId_iff_mem (rows : List Row) (id : String) :
    hasId rows id = true ↔ id ∈ rows.map (fun r => r.listing_id) := by
  simp only [hasId, List.any_eq_true, beq_iff_eq, List.mem_map]

/-- The id of the row built from a listing. -/
theorem rowOfListing_listing_id (l : Listing) (now : String) :
    (rowOfListing l now).listing_id = l.listing_id := rfl

/-- `INSERT OR IGNORE` never removes an id. -/
theorem insertIgnore_hasId_mono (rows : List Row) (r : Row) (id : String)
    (h : hasId rows id = true) : hasId (insertIgnore rows r) id = true := by
  rw [insertIgnore]
  split
  · exact h
  · simp only [hasId, List.any_append] at h ⊢
    rw [h, Bool.true_or]

/-- After `INSERT OR IGNORE` of a row, its id is present. -/
theorem insertIgnore_hasId_self (rows : List Row) (r : Row) :
    hasId (insertIgnore rows r) r.listing_id = true := by
  rw [insertIgnore]
  split
  · rename_i h; exact h
  · simp [hasId, List.any_append]

/-- The `executemany` fold never removes an id. -/
theorem foldl_insert_hasId_mono (now : String) :
    ∀ (ls : List Listing) (rows : List Row) (id : String),
      hasId rows id = true →
      hasId (ls.foldl (fun rows l => insertIgnore rows (rowOfListing l now)) rows)
        id = true
  | [], _, _, h => h
  | _ :: rest, rows, id, h =>
    foldl_insert_hasId_mono now rest _ id (insertIgnore_hasId_mono rows _ id h)

/-- After the `executemany` fold, every batch id is present. -/
theorem foldl_insert_hasId (now : String) :
    ∀ (ls : List Listing) (rows : List Row) (l : Listing), l ∈ ls →
      hasId (ls.foldl (fun rows l => insertIgnore rows (rowOfListing l now)) rows)
        l.listing_id = true
  | [], _, l, hl => absurd hl (List.not_mem_nil l)
  | x :: rest, rows, l, hl => by
    rcases List.mem_cons.mp hl with rfl | h2
    · exact foldl_insert_hasId_mono now rest _ _ (insertIgnore_hasId_self rows _)
    · exact foldl_insert_hasId now rest _ l h2

/-- When every batch id is already present, the `executemany` fold is the
identity: all inserts are ignored. -/
theorem foldl_insert_noop (now : String) :
    ∀ (ls : List Listing) (rows : List Row),
      (∀ l ∈ ls, hasId rows l.listing_id = true) →
      ls.foldl (fun rows l => insertIgnore rows (rowOfListing l now)) rows = rows
  | [], _, _ => rfl
  | x :: rest, rows, h => by
    have hx : insertIgnore rows (rowOfListing x now) = rows := by
      rw [insertIgnore, rowOfListing_listing_id,
        if_pos (h x (List.mem_cons_self _ _))]
    rw [List.foldl_cons, hx]
    exact foldl_insert_noop now rest rows
      (fun l hl => h l (List.mem_cons_of_mem _ hl))

/-- `INSERT OR IGNORE` preserves primary-key uniqueness. -/
theorem insertIgnore_nodup (rows : List Row) (r : Row) (h : nodupIds rows) :
    nodupIds (insertIgnore rows r) := by
  rw [insertIgnore]
  split
  · exact h
  · rename_i hno
    rw [nodupIds, List.map_append]
    refine List.Nodup.append h (List.nodup_singleton _) ?_
    intro a ha hb
    simp only [List.map_cons, List.map_nil, List.mem_singleton] at hb
    subst hb
    exact hno ((hasId_iff_mem rows r.listing_id).mpr ha)

/-- The `executemany` fold preserves primary-key uniqueness. -/
theorem foldl_insert_nodup (now : String) :
    ∀ (ls : List Listing) (rows : List Row), nodupIds rows →
      nodupIds
        (ls.foldl (fun rows l => insertIgnore rows (rowOfListing l now)) rows)
  | [], _, h => h
  | _ :: rest, rows, h =>
    foldl_insert_nodup now rest _ (insertIgnore_nodup rows _ h)

/-- After `save_listings`, every saved id is in the table. -/
theorem save_listings_hasId (s : Store) (ls : List Listing) (now : String)
    (l : Listing) (hl : l ∈ ls) :
    hasId (save_listings s ls now).listings l.listing_id = true := by
  have hne : ls.isEmpty = false := by
    cases ls with
    | nil => exact absurd hl (List.not_mem_nil l)
    | cons a t => rfl
  simp only [save_listings, hne, Bool.false_eq_true, if_false]
  exact foldl_insert_hasId now ls s.listings l hl

/-- Splitting a filter by a predicate and its negation covers the list. -/
theorem filter_length_split {α : Type} (p : α → Bool) :
    ∀ l : List α,
      (l.filter p).length + (l.filter fun x => !(p x)).length = l.length
  | [] => rfl
  | x :: t => by
    have ih := filter_length_split p t
    cases hx : p x <;> simp [List.filter_cons, hx] <;> omega

/-- C5: saving the same batch twice leaves the store of the first save
unchanged — in particular every `first_seen_at` keeps the first call's
timestamp even though the second call runs at a later `now2` — and, under
the primary-key invariant, each batch `listing_id` ends up on exactly one
persisted row. -/
theorem C5_save_twice_idempotent :
    ∀ (s : Store) (ls : List Listing) (now1 now2 : String),
      save_listings (save_listings s ls now1) ls now2 =
        save_listings s ls now1 ∧
      (nodupIds s.listings → ∀ l ∈ ls,
        ((save_listings s ls now1).listings.map fun r => r.listing_id).count
            l.listing_id = 1) := by
  intro s ls now1 now2
  constructor
  · by_cases hE : ls = []
    · subst hE; rfl
    · have hne : ls.isEmpty = false := by
        cases ls with
        | nil => exact absurd rfl hE
        | cons a t => rfl
      have hall : ∀ l ∈ ls,
          hasId (save_listings s ls now1).listings l.listing_id = true :=
        fun l hl => save_listings_hasId s ls now1 l hl
      conv_lhs => rw [save_listings]
      simp only [hne, Bool.false_eq_true, if_false]
      rw [foldl_insert_noop now2 ls _ hall]
  · intro hnd l hl
    have hne : ls.isEmpty = false := by
      cases ls with
      | nil => exact absurd hl (List.not_mem_nil l)
      | cons a t => rfl
    have hmem : l.listing_id ∈
        (save_listings s ls now1).listings.map (fun r => r.listing_id) :=
      (hasId_iff_mem _ _).mp (save_listings_hasId s ls now1 l hl)
    have hnd2 : nodupIds (save_listings s ls now1).listings := by
      simp only [save_listings, hne, Bool.false_eq_true, if_false]
      exact foldl_insert_nodup now1 ls s.listings hnd
    exact List.count_eq_one_of_mem hnd2 hmem

/-- Witness for C5: saving `[exL1]` twice into the empty store is the same
as saving it once, and the id ends up on exactly one row. -/
theorem C5_save_twice_idempotent_witness :
    save_listings (save_listings exStore0 [exL1] "t1") [exL1] "t2" =
      save_listings exStore0 [exL1] "t1" ∧
    ((save_listings exStore0 [exL1] "t1").listings.map
        fun r => r.listing_id).count exL1.listing_id = 1 :=
  ⟨(C5_save_twice_idempotent exStore0 [exL1] "t1" "t2").1,
   (C5_save_twice_idempotent exStore0 [exL1] "t1" "t2").2
     (by unfold nodupIds; decide) exL1 (by decide)⟩

/-- C6: `delete_expired_listings` with an empty id list deletes nothing and
returns 0; with a non-empty id list it deletes exactly the rows whose
`listing_id` is absent from the list, returns the number deleted, keeps the
rows whose id is present unchanged (in order), and leaves the run log
alone. -/
theorem C6_delete_expired_exact :
    (∀ s : Store, delete_expired_listings s [] = (0, s)) ∧
    ∀ (s : Store) (ids : List String), ids ≠ [] →
      (delete_expired_listings s ids).2.listings =
        s.listings.filter (fun r => decide (r.listing_id ∈ ids)) ∧
      (delete_expired_listings s ids).1 =
        (s.listings.filter (fun r => decide (r.listing_id ∉ ids))).length ∧
      (delete_expired_listings s ids).2.run_log = s.run_log := by
  refine ⟨fun s => rfl, ?_⟩
  intro s ids hne
  have hneB : ids.isEmpty = false := by
    cases ids with
    | nil => exact absurd rfl hne
    | cons a t => rfl
  have hcong : ∀ r : Row,
      ids.contains r.listing_id = decide (r.listing_id ∈ ids) := by
    intro r
    rw [Bool.eq_iff_iff, contains_eq_true_iff, decide_eq_true_eq]
  simp only [delete_expired_listings, hneB, Bool.false_eq_true, if_false]
  refine ⟨List.filter_congr (fun r _ => hcong r), ?_, by trivial⟩
  have hsplit :=
    filter_length_split (fun r : Row => ids.contains r.listing_id) s.listings
  have hnegcong :
      s.listings.filter (fun r => !(ids.contains r.listing_id)) =
        s.listings.filter (fun r => decide (r.listing_id ∉ ids)) := by
    refine List.filter_congr (fun r _ => ?_)
    rw [Bool.eq_iff_iff]
    simp only [Bool.not_eq_true', decide_eq_true_eq]
    rw [← Bool.not_eq_true, contains_eq_true_iff]
  rw [← hnegcong]
  omega

/-- Witness for C6 on a two-row store: the row for `jnc_2` is deleted, the
row for `jnc_1` kept, and the count is 1. -/
theorem C6_delete_expired_exact_witness :
    (delete_expired_listings exStoreD ["jnc_1"]).2.listings =
      exStoreD.listings.filter
        (fun r => decide (r.listing_id ∈ (["jnc_1"] : List String))) ∧
    (delete_expired_listings exStoreD ["jnc_1"]).1 =
      (exStoreD.listings.filter
        (fun r => decide (r.listing_id ∉ (["jnc_1"] : List String)))).length :=
  ⟨(C6_delete_expired_exact.2 exStoreD ["jnc_1"] (by decide)).1,
   (C6_delete_expired_exact.2 exStoreD ["jnc_1"] (by decide)).2.1⟩

/-- C7: once the filtered batch has been saved, filtering it again returns
the empty list — every saved id is found by the `known_ids` SELECT and
excluded by rule 1. -/
theorem C7_filter_idempotent_after_save :
    ∀ (s : Store) (candidates : List Listing) (now : String),
      (filter_new_listings
          (save_listings s (filter_new_listings s candidates).1 now)
          (filter_new_listings s candidates).1).1 = [] := by
  intro s X now
  by_cases hF : (filter_new_listings s X).1 = []
  · rw [hF]; rfl
  · set F := (filter_new_listings s X).1 with hFdef
    set s2 := save_listings s F now with hs2
    have hne : F.isEmpty = false := by
      cases hc : F with
      | nil => exact absurd hc hF
      | cons a t => rfl
    show (filter_new_listings s2 F).1 = []
    simp only [filter_new_listings, hne, Bool.false_eq_true, if_false]
    apply dedupLoop_eq_nil
    intro l hl
    have hhas : hasId s2.listings l.listing_id = true := by
      rw [hs2]; exact save_listings_hasId s F now l hl
    rw [is_new, knownIds_contains_eq s2 F l hl]
    have hr1 : specRule1 s2 l = true := hhas
    rw [hr1]
    simp only [Bool.not_true, Bool.false_and]

/-! ## Fetch-loop lemmas -/

/-- A successful GET: one attempt, the document, the oracle advanced. -/
theorem fetchPage_ok (w : Nat → FetchOutcome) (k : Nat) (url : String)
    (doc : Soup) (h : w k = .ok doc) :
    fetchPage w k url = (some doc, k + 1, [Event.attempt url]) := by
  simp only [fetchPage, h]

/-- One successful loop iteration whose page reports a next link: its
listings are prepended, the inter-page sleep is emitted, and the loop
continues on the next URL with one less page allowed. -/
theorem fetchLoop_succ_ok (w : Nat → FetchOutcome) (delay : ℚ)
    (remaining : Nat) (url u2 : String) (k k2 : Nat) (ev : List Event)
    (doc : Soup) (hp : fetchPage w k url = (some doc, k2, ev))
    (hn : get_next_page_url doc = some u2) :
    fetchLoop w delay (remaining + 1) (some url) k =
      (parse_listings doc ++ (fetchLoop w delay remaining (some u2) k2).1,
       ev ++ Event.sleep delay :: (fetchLoop w delay remaining (some u2) k2).2) := by
  simp only [fetchLoop, hp, hn]

/-- A failed fetch breaks the loop at once: nothing further is returned
beyond the failing page's trace. -/
theorem fetchLoop_succ_fail (w : Nat → FetchOutcome) (delay : ℚ)
    (remaining : Nat) (url : String) (k k2 : Nat) (ev : List Event)
    (hp : fetchPage w k url = (none, k2, ev)) :
    fetchLoop w delay (remaining + 1) (some url) k = ([], ev) := by
  simp only [fetchLoop, hp]

/-- C3 counterexample: a document with zero listing cards but a pagination
anchor labelled `次へ` parses to an empty listing list, yet the next-page
link is NOT none — refuting the claim that zero cards force a none
next-page link. -/
theorem C3_counterexample_zero_cards_with_next :
    parse_listings exSoupNoCards = [] ∧
    get_next_page_url exSoupNoCards ≠ none := by
  constructor
  · rfl
  · decide

/-- C3 (amended): a document with zero listing cards parses to an empty
listing list (and, the functions being total, without an exception); the
next-page link is computed from the pagination anchors independently of the
cards: it is none exactly when no pagination anchor both carries the next
label (`次へ` in its text, or text `>`) and has a non-empty `href`. -/
theorem C3_zero_cards_empty_parse (s : Soup) (h : s.cards = []) :
    parse_listings s = [] ∧
    (get_next_page_url s = none ↔
      ∀ a ∈ s.pagination_links,
        ((infixOf "次へ".toList a.text.toList || a.text == ">") && a.href != "")
          = false) := by
  constructor
  · rw [parse_listings, h]
    rfl
  · rw [get_next_page_url, Option.map_eq_none', List.find?_eq_none]
    constructor
    · intro hn a ha
      exact Bool.eq_false_iff.mpr (hn a ha)
    · intro hall a ha
      rw [hall a ha]
      exact Bool.false_ne_true

/-- Witness for the amended C3 on a zero-card document whose only
pagination anchor is not labelled next: the parse is empty and the
next-page link none. -/
theorem C3_zero_cards_empty_parse_witness :
    parse_listings
      { cards := [], pagination_links := [{ text := "前へ", href := "/p0" }] }
      = [] ∧
    get_next_page_url
      { cards := [], pagination_links := [{ text := "前へ", href := "/p0" }] }
      = none :=
  ⟨(C3_zero_cards_empty_parse
      { cards := [], pagination_links := [{ text := "前へ", href := "/p0" }] }
      rfl).1,
   (C3_zero_cards_empty_parse
      { cards := [], pagination_links := [{ text := "前へ", href := "/p0" }] }
      rfl).2.mpr (by decide)⟩

/-- A matched `jnc_` id is never the empty string. -/
theorem searchJnc_ne_empty (cs : List Char) (t : String)
    (h : searchJnc cs = some t) : t ≠ "" := by
  rw [searchJnc] at h
  cases hr : searchJncRun cs with
  | none => rw [hr] at h; cases h
  | some run =>
    rw [hr] at h
    simp only [Option.map_some'] at h
    obtain rfl := Option.some.inj h
    intro hcontra
    have hdata := congrArg String.data hcontra
    simp at hdata

/-- `_extract_listing_id` never returns an empty id: the `jnc_` match is
non-empty and the fallback is `bc_` plus a non-empty parameter value. -/
theorem extract_listing_id_ne_empty (href t : String)
    (h : extract_listing_id href = some t) : t ≠ "" := by
  rw [extract_listing_id] at h
  cases hj : searchJnc href.toList with
  | some u =>
    simp only [hj] at h
    obtain rfl := Option.some.inj h
    exact searchJnc_ne_empty href.toList u hj
  | none =>
    simp only [hj] at h
    cases hq : getQsFirst (getQuery href) "bc" with
    | none => simp only [hq] at h; cases h
    | some bc =>
      simp only [hq] at h
      by_cases hbc : (bc != "") = true
      · rw [if_pos hbc] at h
        obtain rfl := Option.some.inj h
        intro hcontra
        have hlen := congrArg String.length hcontra
        have h3 : ("bc_" ++ bc).length = 3 + bc.length := by
          rw [String.length_append]
          rfl
        have h0 : "".length = 0 := rfl
        rw [h3, h0] at hlen
        omega
      · rw [if_neg hbc] at h
        cases h

/-- C9: every Listing a parse returns has a non-empty `listing_id`; rows
whose link yields neither a `jnc_` match nor a `bc` parameter are skipped
by `parseRow`, never emitted with an empty id. -/
theorem C9_parsed_ids_nonempty :
    ∀ (s : Soup) (l : Listing), l ∈ parse_listings s → l.listing_id ≠ "" := by
  intro s l hl
  rw [parse_listings] at hl
  rw [List.mem_flatMap] at hl
  obtain ⟨card, hc, hl2⟩ := hl
  rw [List.mem_filterMap] at hl2
  obtain ⟨row, hr, hparse⟩ := hl2
  rw [parseRow] at hparse
  cases hhref : row.link_href with
  | none => simp only [hhref] at hparse; cases hparse
  | some href =>
    simp only [hhref] at hparse
    by_cases hemp : href = ""
    · rw [if_pos hemp] at hparse; cases hparse
    · rw [if_neg hemp] at hparse
      cases hid : extract_listing_id href with
      | none => simp only [hid] at hparse; cases hparse
      | some lid =>
        simp only [hid] at hparse
        obtain rfl := Option.some.inj hparse
        exact extract_listing_id_ne_empty href lid hid

/-- Witness for C9: the listing parsed from `exSoupOne` has id `jnc_abc`. -/
theorem C9_parsed_ids_nonempty_witness : exParsed.listing_id ≠ "" :=
  C9_parsed_ids_nonempty exSoupOne exParsed (by decide)

/-- C2 counterexample: with `max_pages = 2` and an oracle whose every page
parses and reports a next link, the loop sleeps the inter-page delay twice
— once after each fetched page, including the final one, because the sleep
is guarded only by the presence of a next URL — refuting "sleeps exactly
once / never after the final page". -/
theorem C2_counterexample_two_sleeps :
    countSleeps (fetch_all_listings exOracle 3 2 "https://suumo.jp/s").2 = 2 ∧
    (2 : Nat) ≠ 1 := by
  constructor
  · decide
  · decide

/-- C2 (amended): with `max_pages = 2` and every fetched document parsed
and reporting a next-page link, exactly 2 fetches occur, the configured
inter-page delay is slept exactly twice (after each page whose next link
exists, including the final page), and the result is the concatenation of
the two pages' extractions in page order. -/
theorem C2_two_pages_two_sleeps :
    ∀ (w : Nat → FetchOutcome) (delay : ℚ) (u : String),
      (∀ k, ∃ doc, w k = .ok doc ∧ (get_next_page_url doc).isSome) →
      countAttempts (fetch_all_listings w delay 2 u).2 = 2 ∧
      countSleeps (fetch_all_listings w delay 2 u).2 = 2 ∧
      ∃ d0 d1 u1,
        w 0 = .ok d0 ∧ w 1 = .ok d1 ∧ get_next_page_url d0 = some u1 ∧
        (fetch_all_listings w delay 2 u).1 =
          parse_listings d0 ++ parse_listings d1 ∧
        (fetch_all_listings w delay 2 u).2 =
          [Event.attempt u, Event.sleep delay, Event.attempt u1,
           Event.sleep delay] := by
  intro w delay u h
  obtain ⟨d0, h0, hn0⟩ := h 0
  obtain ⟨d1, h1, hn1⟩ := h 1
  obtain ⟨u1, hu1⟩ := Option.isSome_iff_exists.mp hn0
  obtain ⟨u2, hu2⟩ := Option.isSome_iff_exists.mp hn1
  have hp0 : fetchPage w 0 u = (some d0, 1, [Event.attempt u]) :=
    fetchPage_ok w 0 u d0 h0
  have hp1 : fetchPage w 1 u1 = (some d1, 2, [Event.attempt u1]) :=
    fetchPage_ok w 1 u1 d1 h1
  have hz : fetchLoop w delay 0 (some u2) 2 = ([], []) := rfl
  have hstep2 : fetchLoop w delay 1 (some u1) 1 =
      (parse_listings d1 ++ (fetchLoop w delay 0 (some u2) 2).1,
       [Event.attempt u1] ++
         Event.sleep delay :: (fetchLoop w delay 0 (some u2) 2).2) :=
    fetchLoop_succ_ok w delay 0 u1 u2 1 2 [Event.attempt u1] d1 hp1 hu2
  have hstep1 : fetchLoop w delay 2 (some u) 0 =
      (parse_listings d0 ++ (fetchLoop w delay 1 (some u1) 1).1,
       [Event.attempt u] ++
         Event.sleep delay :: (fetchLoop w delay 1 (some u1) 1).2) :=
    fetchLoop_succ_ok w delay 1 u u1 0 1 [Event.attempt u] d0 hp0 hu1
  have hfa : fetch_all_listings w delay 2 u =
      (parse_listings d0 ++ (parse_listings d1 ++ []),
       [Event.attempt u] ++ Event.sleep delay ::
         ([Event.attempt u1] ++ Event.sleep delay :: [])) := by
    rw [fetch_all_listings, hstep1, hstep2, hz]
  refine ⟨?_, ?_, d0, d1, u1, h0, h1, hu1, ?_, ?_⟩
  · rw [hfa]; rfl
  · rw [hfa]; rfl
  · rw [hfa]; simp
  · rw [hfa]; rfl

/-- Witness for the amended C2 on the constant oracle. -/
theorem C2_two_pages_two_sleeps_witness :
    countAttempts (fetch_all_listings exOracle 3 2 "https://suumo.jp/s").2 = 2 ∧
    countSleeps (fetch_all_listings exOracle 3 2 "https://suumo.jp/s").2 = 2 :=
  ⟨(C2_two_pages_two_sleeps exOracle 3 "https://suumo.jp/s"
      (fun _ => ⟨exSoupNoCards, rfl, by decide⟩)).1,
   (C2_two_pages_two_sleeps exOracle 3 "https://suumo.jp/s"
      (fun _ => ⟨exSoupNoCards, rfl, by decide⟩)).2.1⟩

/-- C8: a non-429 HTTP error or a transport error makes `_fetch_page`
return failure after a single attempt with no cooldown; HTTP 429 triggers
exactly one 60-second cooldown and one retry of the same URL, whose failure
(of any kind) yields the same `None`; and a page-fetch failure breaks the
loop so that only listings accumulated from earlier, successful iterations
are returned. -/
theorem C8_fetch_failure_handling :
    (∀ (w : Nat → FetchOutcome) (k : Nat) (url : String) (status : Nat),
        w k = .httpErr status → status ≠ 429 →
        fetchPage w k url = (none, k + 1, [Event.attempt url])) ∧
    (∀ (w : Nat → FetchOutcome) (k : Nat) (url : String),
        w k = .netErr → fetchPage w k url = (none, k + 1, [Event.attempt url])) ∧
    (∀ (w : Nat → FetchOutcome) (k : Nat) (url : String),
        w k = .httpErr 429 →
        (fetchPage w k url).2.2 =
          [Event.attempt url, Event.sleep 60, Event.attempt url] ∧
        ((fetchPage w k url).1 = none ↔ ∀ d, w (k + 1) ≠ .ok d)) ∧
    (∀ (w : Nat → FetchOutcome) (delay : ℚ) (remaining : Nat) (url : String)
        (k k2 : Nat) (ev : List Event),
        fetchPage w k url = (none, k2, ev) →
        fetchLoop w delay (remaining + 1) (some url) k = ([], ev)) ∧
    (∀ (w : Nat → FetchOutcome) (delay : ℚ) (remaining : Nat) (url u2 : String)
        (k k2 : Nat) (ev : List Event) (doc : Soup),
        fetchPage w k url = (some doc, k2, ev) →
        get_next_page_url doc = some u2 →
        fetchLoop w delay (remaining + 1) (some url) k =
          (parse_listings doc ++ (fetchLoop w delay remaining (some u2) k2).1,
           ev ++ Event.sleep delay ::
             (fetchLoop w delay remaining (some u2) k2).2)) := by
  refine ⟨?_, ?_, ?_, ?_, ?_⟩
  · intro w k url status h hs
    simp only [fetchPage, h, if_neg hs]
  · intro w k url h
    simp only [fetchPage, h]
  · intro w k url h
    constructor
    · rcases h2 : w (k + 1) with d | st | _ <;> simp [fetchPage, h, h2]
    · rcases h2 : w (k + 1) with d | st | _ <;> simp [fetchPage, h, h2]
  · intro w delay remaining url k k2 ev hp
    exact fetchLoop_succ_fail w delay remaining url k k2 ev hp
  · intro w delay remaining url u2 k k2 ev doc hp hn
    exact fetchLoop_succ_ok w delay remaining url u2 k k2 ev doc hp hn

/-- Witness for C8: on the all-500 oracle the first page fails after one
attempt and the loop returns nothing beyond that attempt's trace. -/
theorem C8_fetch_failure_handling_witness :
    fetchPage exOracle500 0 "u" = (none, 1, [Event.attempt "u"]) ∧
    fetchLoop exOracle500 3 1 (some "u") 0 = ([], [Event.attempt "u"]) :=
  ⟨C8_fetch_failure_handling.1 exOracle500 0 "u" 500 rfl (by decide),
   C8_fetch_failure_handling.2.2.2.1 exOracle500 3 0 "u" 0 1 [Event.attempt "u"]
     (C8_fetch_failure_handling.1 exOracle500 0 "u" 500 rfl (by decide))⟩
